import Mathlib

/-!
Formal model of the playback/synchronization core of the
"Free PDF Reader and Download" document narrator (`src/script.js`).

The document text is modelled as a `List Char`; JavaScript numbers that can
be negative (character indices produced by callers, the playback cursor) are
modelled as `Int`; slider values, which are numeric strings coerced with
`Number(...)`, are modelled as `Option ℚ` (`none` standing for `NaN`).
The speech engine is modelled as the queue of utterances that have been
submitted by `speechSynthesis.speak` and not yet cancelled or finished,
and the DOM/timer callbacks of the script are modelled as events of an
event-driven step function, one step per callback invocation.
-/

namespace DocReader

/-- The fixed chunk size of the reader (`internalChunkSize`, script.js line 64). -/
def internalChunkSize : Nat := 3000

/-- Core of `buildChunks` (script.js lines 146-152): the JS loop
`for (let i=0; i<currentText.length; i+=chunkSize) push(currentText.slice(i, i+chunkSize))`,
written as recursion over the remaining text.  The source only ever runs it
with `chunkSize = internalChunkSize = 3000`, so the `chunkSize = 0` guard
(needed for termination here, an infinite loop in JS) is never exercised. -/
def buildChunksAux (chunkSize : Nat) : Nat → List Char → List (List Char)
  | _, [] => []
  | 0, _ :: _ => []
  | fuel + 1, ch :: rest =>
    if chunkSize = 0 then []
    else
      (ch :: rest).take chunkSize :: buildChunksAux chunkSize fuel ((ch :: rest).drop chunkSize)

/-- Definition `buildChunksFrom` runs the loop with `text.length` as structural fuel,
which always suffices because each iteration drops at least one character
(when `chunkSize > 0`); the fuel is only a termination device
(`buildChunksAux_fuel` shows the result does not depend on it). -/
def buildChunksFrom (chunkSize : Nat) (text : List Char) : List (List Char) :=
  buildChunksAux chunkSize text.length text

/-- Function `buildChunks` (script.js lines 146-152) at the reader's fixed chunk size. -/
def buildChunks (text : List Char) : List (List Char) :=
  buildChunksFrom internalChunkSize text

theorem buildChunksAux_fuel (cs : Nat) :
    ∀ (fuel fuel' : Nat) (text : List Char), text.length ≤ fuel → text.length ≤ fuel' →
      buildChunksAux cs fuel text = buildChunksAux cs fuel' text := by
  intro fuel
  induction fuel with
  | zero =>
    intro fuel' text h h'
    have : text = [] := List.length_eq_zero.mp (by omega)
    subst this
    cases fuel' <;> simp [buildChunksAux]
  | succ k ih =>
    intro fuel' text h h'
    match text with
    | [] => cases fuel' <;> simp [buildChunksAux]
    | ch :: rest =>
      match fuel' with
      | 0 => simp at h'
      | k' + 1 =>
        simp only [buildChunksAux]
        rcases eq_or_ne cs 0 with rfl | hcs
        · simp
        · simp only [if_neg hcs]
          have hlen : ((ch :: rest).drop cs).length ≤ k := by
            simp only [List.length_drop, List.length_cons] at h ⊢
            omega
          have hlen' : ((ch :: rest).drop cs).length ≤ k' := by
            simp only [List.length_drop, List.length_cons] at h' ⊢
            omega
          rw [ih k' _ hlen hlen']

theorem buildChunksFrom_nil (cs : Nat) : buildChunksFrom cs [] = [] := rfl

theorem buildChunksFrom_cons (cs : Nat) (hcs : 0 < cs) (text : List Char)
    (ht : text ≠ []) :
    buildChunksFrom cs text =
      text.take cs :: buildChunksFrom cs (text.drop cs) := by
  match text, ht with
  | ch :: rest, _ =>
    show buildChunksAux cs (rest.length + 1) (ch :: rest) = _
    simp only [buildChunksAux, if_neg (by omega : ¬cs = 0)]
    rw [buildChunksAux_fuel cs rest.length ((ch :: rest).drop cs).length]
    · rfl
    · simp only [List.length_drop, List.length_cons]; omega
    · exact le_rfl

/-- Concatenating all chunks gives back the text. -/
theorem join_buildChunksFrom (cs : Nat) (hcs : 0 < cs) :
    ∀ text : List Char, (buildChunksFrom cs text).flatten = text := by
  suffices H : ∀ (n : Nat) (text : List Char), text.length ≤ n →
      (buildChunksFrom cs text).flatten = text by
    intro text; exact H text.length text le_rfl
  intro n
  induction n with
  | zero =>
    intro text h
    have : text = [] := List.length_eq_zero.mp (by omega)
    simp [this, buildChunksFrom_nil]
  | succ n ih =>
    intro text h
    rcases eq_or_ne text [] with rfl | ht
    · simp [buildChunksFrom_nil]
    · have hpos := List.length_pos.mpr ht
      rw [buildChunksFrom_cons cs hcs text ht, List.flatten_cons,
        ih (text.drop cs) (by simp only [List.length_drop]; omega),
        List.take_append_drop]

/-- Chunk count is `ceil(len / cs)`. -/
theorem length_buildChunksFrom (cs : Nat) (hcs : 0 < cs) :
    ∀ text : List Char,
      (buildChunksFrom cs text).length = (text.length + cs - 1) / cs := by
  suffices H : ∀ (n : Nat) (text : List Char), text.length ≤ n →
      (buildChunksFrom cs text).length = (text.length + cs - 1) / cs by
    intro text; exact H text.length text le_rfl
  intro n
  induction n with
  | zero =>
    intro text h
    have : text = [] := List.length_eq_zero.mp (by omega)
    simp [this, buildChunksFrom_nil, Nat.div_eq_of_lt (show cs - 1 < cs by omega)]
  | succ n ih =>
    intro text h
    rcases eq_or_ne text [] with rfl | ht
    · simp [buildChunksFrom_nil, Nat.div_eq_of_lt (show cs - 1 < cs by omega)]
    · have hpos := List.length_pos.mpr ht
      rw [buildChunksFrom_cons cs hcs text ht, List.length_cons,
        ih (text.drop cs) (by simp only [List.length_drop]; omega)]
      simp only [List.length_drop]
      rcases le_or_lt text.length cs with hle | hlt
      · have h1 : text.length - cs = 0 := by omega
        rw [h1]
        have h2 : (0 + cs - 1) / cs = 0 := Nat.div_eq_of_lt (by omega)
        rw [h2]
        have h3 : text.length + cs - 1 = (text.length - 1) + cs := by omega
        rw [h3, Nat.add_div_right _ hcs]
        have h4 : (text.length - 1) / cs = 0 := Nat.div_eq_of_lt (by omega)
        omega
      · have h2 : text.length - cs + cs - 1 = text.length - 1 := by omega
        have h3 : text.length + cs - 1 = (text.length - 1) + cs := by omega
        rw [h2, h3, Nat.add_div_right _ hcs]

/-- Chunk `i` is the slice of the text starting at global offset `i * cs`. -/
theorem get?_buildChunksFrom (cs : Nat) (hcs : 0 < cs) :
    ∀ (text : List Char) (i : Nat), i < (buildChunksFrom cs text).length →
      (buildChunksFrom cs text)[i]? = some ((text.drop (i * cs)).take cs) := by
  suffices H : ∀ (n : Nat) (text : List Char), text.length ≤ n →
      ∀ i, i < (buildChunksFrom cs text).length →
        (buildChunksFrom cs text)[i]? = some ((text.drop (i * cs)).take cs) by
    intro text; exact H text.length text le_rfl
  intro n
  induction n with
  | zero =>
    intro text h i hi
    have : text = [] := List.length_eq_zero.mp (by omega)
    subst this
    simp [buildChunksFrom_nil] at hi
  | succ n ih =>
    intro text h i hi
    rcases eq_or_ne text [] with rfl | ht
    · simp [buildChunksFrom_nil] at hi
    · have hpos := List.length_pos.mpr ht
      rw [buildChunksFrom_cons cs hcs text ht] at hi ⊢
      cases i with
      | zero => simp
      | succ j =>
        simp only [List.getElem?_cons_succ]
        rw [ih (text.drop cs) (by simp only [List.length_drop]; omega) j
            (by simpa using hi), List.drop_drop]
        congr 2
        rw [Nat.succ_mul, Nat.add_comm]

/-- The first `i` chunks concatenate to the first `i * cs` characters, hence
chunk `i` starts at global offset `i * cs`. -/
theorem take_flatten_buildChunksFrom (cs : Nat) (hcs : 0 < cs) :
    ∀ (text : List Char) (i : Nat),
      ((buildChunksFrom cs text).take i).flatten = text.take (i * cs) := by
  suffices H : ∀ (n : Nat) (text : List Char), text.length ≤ n →
      ∀ i, ((buildChunksFrom cs text).take i).flatten = text.take (i * cs) by
    intro text; exact H text.length text le_rfl
  intro n
  induction n with
  | zero =>
    intro text h i
    have : text = [] := List.length_eq_zero.mp (by omega)
    simp [this, buildChunksFrom_nil]
  | succ n ih =>
    intro text h i
    rcases eq_or_ne text [] with rfl | ht
    · simp [buildChunksFrom_nil]
    · have hpos := List.length_pos.mpr ht
      rw [buildChunksFrom_cons cs hcs text ht]
      cases i with
      | zero => simp
      | succ j =>
        rw [List.take_succ_cons, List.flatten_cons,
          ih (text.drop cs) (by simp only [List.length_drop]; omega) j]
        have harith : (j + 1) * cs = cs + j * cs := by
          rw [Nat.succ_mul, Nat.add_comm]
        rw [harith, List.take_add]

/-- Semantics of `Number(slider.value) || 1` (script.js lines 287-288): `Number` of a
non-numeric string is `NaN` (modelled `none`) and both `NaN` and `0` are
falsy, so either yields `1`. -/
def jsNumOr1 (v : Option ℚ) : ℚ :=
  match v with
  | none => 1
  | some x => if x = 0 then 1 else x

/-- Semantics of `e.charLength || 1` (script.js line 301): a missing (`undefined`) or zero
char length is replaced by `1`. -/
def jsLenOr1 (v : Option Nat) : Int :=
  match v with
  | none => 1
  | some l => if l = 0 then 1 else (l : Int)

/-- A `SpeechSynthesisUtterance` object created by `speakChunk`
(script.js lines 286-333).  `onendSet`/`onerrorSet` record whether the
`onend`/`onerror` handlers are still attached (they are nulled to invalidate
a request); `onboundary` is never nulled by the script so it needs no flag.
`baseOffset` is the global offset captured by the handlers' closure. -/
structure Utt where
  id : Nat
  text : List Char
  rate : ℚ
  volume : ℚ
  baseOffset : Int
  onendSet : Bool
  onerrorSet : Bool
deriving DecidableEq, Repr

/-- The mutable state of script.js: the module-level variables of the script
(lines 39-45 and 126-131), the sliders, the utterance objects created so far
(`utts`, with `uttVar` the id currently held by the `utterance` variable),
the speech-engine queue (ids submitted by `speak` and not yet cancelled or
finished) with its paused flag, the pending `setTimeout` callbacks (each one
a scheduled `playFromCurrentChunk(offset)` call), the textarea selection set
by the boundary handler, and a counter of reported TTS errors. -/
structure Sys where
  currentText : List Char
  currentChunks : List (List Char)
  currentIndex : Int
  isPlaying : Bool
  lastBoundaryGlobalStart : Int
  restartInFlight : Bool
  rateSlider : Option ℚ
  volumeSlider : Option ℚ
  utts : List Utt
  uttVar : Option Nat
  engine : List Nat
  enginePaused : Bool
  pending : List Int
  selection : Option (Int × Int)
  errorCount : Nat
  nextId : Nat
deriving DecidableEq, Repr

/-- The state after `window.onload` with no document loaded:
all module variables at their initializers, `rateSlider.value = 1`
(script.js line 489), volume slider at its default of 1. -/
def initState : Sys :=
  { currentText := [], currentChunks := [], currentIndex := 0,
    isPlaying := false, lastBoundaryGlobalStart := 0, restartInFlight := false,
    rateSlider := some 1, volumeSlider := some 1, utts := [], uttVar := none,
    engine := [], enginePaused := false, pending := [], selection := none,
    errorCount := 0, nextId := 0 }

/-- Effect of `speechSynthesis.cancel()`: removes every utterance from the engine queue
and clears the paused flag. -/
def cancelEngine (s : Sys) : Sys :=
  { s with engine := [], enginePaused := false }

/-- Effect of `utterance.onend = null; utterance.onerror = null;` applied to the
utterance object with the given id. -/
def nullCallbacks (l : List Utt) (id : Nat) : List Utt :=
  l.map fun u => if u.id = id then { u with onendSet := false, onerrorSet := false } else u

/-- Look up an utterance object by id. -/
def findUtt (s : Sys) (id : Nat) : Option Utt :=
  s.utts.find? fun u => u.id == id

/-- The utterance object currently held by the `utterance` variable. -/
def currentUtt (s : Sys) : Option Utt :=
  match s.uttVar with
  | some id => findUtt s id
  | none => none

/-- Function `speakChunk(text, onend, baseOffsetOverride)` (script.js lines 279-335):
if an utterance is held, null its `onend`/`onerror` and cancel the engine;
create a new utterance with rate/volume `Number(slider.value) || 1`, record
the base offset, initialize `lastBoundaryGlobalStart` to the base offset as
a fallback (line 296), and submit the utterance with `speechSynthesis.speak`.
All call sites pass a numeric `baseOffsetOverride`, so the
`currentIndex * internalChunkSize` default of line 294 is never used. -/
def speakChunk (s : Sys) (text : List Char) (baseOffset : Int) : Sys :=
  let s1 :=
    match s.uttVar with
    | some id =>
      let s' := { s with utts := nullCallbacks s.utts id }
      let s' := cancelEngine s'
      { s' with uttVar := none }
    | none => s
  let u : Utt :=
    { id := s1.nextId, text := text,
      rate := jsNumOr1 s1.rateSlider, volume := jsNumOr1 s1.volumeSlider,
      baseOffset := baseOffset, onendSet := true, onerrorSet := true }
  { s1 with
    utts := s1.utts ++ [u], uttVar := some u.id, nextId := s1.nextId + 1,
    lastBoundaryGlobalStart := baseOffset, engine := s1.engine ++ [u.id] }

/-- Function `playFromCurrentChunk(offsetWithinChunk = 0)` (script.js lines 356-377),
up to (but not including) issuing the speech request: rebuild chunks if
empty, clamp a negative index to 0, and stop (`isPlaying = false`) when the
index is past the last chunk. -/
def playFromCurrentChunk (s : Sys) (offsetWithinChunk : Int) : Sys :=
  let s := if s.currentChunks.isEmpty then
      { s with currentChunks := buildChunks s.currentText } else s
  let s := if s.currentIndex < 0 then { s with currentIndex := 0 } else s
  if (s.currentChunks.length : Int) ≤ s.currentIndex then
    { s with isPlaying := false }
  else
    let s := { s with isPlaying := true, restartInFlight := false }
    let chunkFull := (s.currentChunks[s.currentIndex.toNat]?).getD []
    let speakOffset : Int := max 0 (min offsetWithinChunk (chunkFull.length : Int))
    let chunk := chunkFull.drop speakOffset.toNat
    let baseOffset := s.currentIndex * (internalChunkSize : Int) + speakOffset
    speakChunk s chunk baseOffset

/-- Function `jumpToCharIndex(idx)` (script.js lines 155-169): no-op on empty text,
clamp the index into `[0, len-1]`, select the containing chunk, and start
playback at the exact in-chunk position. -/
def jumpToCharIndex (s : Sys) (idx : Int) : Sys :=
  if s.currentText.isEmpty then s
  else
    let idx := max 0 (min ((s.currentText.length : Int) - 1) idx)
    let chunkSize : Int := (internalChunkSize : Int)
    let s := { s with currentIndex := idx.fdiv chunkSize }
    let baseOffset := s.currentIndex * chunkSize
    let offsetWithinChunk := max 0 (idx - baseOffset)
    playFromCurrentChunk s offsetWithinChunk

/-- Function `setTextViewer(text)` (script.js lines 133-144) and the `pasteBox` input
listener (lines 471-476): replace the text, reset `currentIndex` to 0 and
rebuild the chunks. -/
def setTextViewer (s : Sys) (text : List Char) : Sys :=
  let s := { s with currentText := text }
  let s := { s with currentIndex := 0 }
  { s with currentChunks := buildChunks s.currentText }

/-- The `onboundary` handler of an utterance (script.js lines 297-326),
with `base` the `baseOffset` captured by its closure: if the event carries a
numeric `charIndex`, record `baseOffset + charIndex` as the last confirmed
global offset and select `[start, start + (charLength || 1))` in the
textarea. -/
def onboundaryHandler (s : Sys) (base : Int) (charIndex charLength : Option Nat) : Sys :=
  match charIndex with
  | none => s
  | some ci =>
    let gStart := base + (ci : Int)
    let gEnd := gStart + jsLenOr1 charLength
    { s with lastBoundaryGlobalStart := gStart, selection := some (gStart, gEnd) }

/-- The `onend` closure passed by `playFromCurrentChunk` (script.js lines
367-376): advance the chunk index and, only while still playing and within
the chunks, schedule `playFromCurrentChunk()` (offset 0) after a small
delay; otherwise clear the playing flag. -/
def onendClosure (s : Sys) : Sys :=
  let s := { s with currentIndex := s.currentIndex + 1 }
  if s.currentIndex < (s.currentChunks.length : Int) ∧ s.isPlaying then
    { s with pending := s.pending ++ [0] }
  else
    { s with isPlaying := false }

/-- The engine finishing (or, as an engine quirk, ending a cancelled)
utterance `id`: remove it from the queue and run its `onend` handler if that
handler is still attached. -/
def handleEngineEnd (s : Sys) (id : Nat) : Sys :=
  let s := { s with engine := s.engine.erase id }
  match findUtt s id with
  | some u => if u.onendSet then onendClosure s else s
  | none => s

/-- The engine reporting an error on utterance `id`: its `onerror` handler
(script.js lines 330-333) logs the error and clears the playing flag, if
still attached. -/
def handleEngineError (s : Sys) (id : Nat) : Sys :=
  let s := { s with engine := s.engine.erase id }
  match findUtt s id with
  | some u =>
    if u.onerrorSet then { s with errorCount := s.errorCount + 1, isPlaying := false } else s
  | none => s

/-- Function `restartWithNewSettingsFromCurrentPosition(force)` (script.js lines
546-566): guarded by `restartInFlight`; only acts when playing or forced and
text is loaded; resolves the resume offset from the last boundary (falling
back to the current chunk's base), nulls the current utterance's
`onend`/`onerror`, cancels the engine, resolves the target chunk/offset and
schedules `playFromCurrentChunk(offset)` after the settle delay. -/
def restartWithNewSettingsFromCurrentPosition (s : Sys) (force : Bool) : Sys :=
  if s.restartInFlight then s
  else
    let canRestart := (s.isPlaying || force) && !s.currentText.isEmpty
    if !canRestart then s
    else
      let chunkSize : Int := (internalChunkSize : Int)
      let fallback := s.currentIndex * chunkSize
      let resumeAt := if 0 ≤ s.lastBoundaryGlobalStart then s.lastBoundaryGlobalStart else fallback
      let s := match s.uttVar with
        | some id => { s with utts := nullCallbacks s.utts id }
        | none => s
      let s := { s with restartInFlight := true }
      let s := cancelEngine s
      if !s.isPlaying && !force then s
      else
        let newIndex := max 0 (resumeAt.fdiv chunkSize)
        let newBase := newIndex * chunkSize
        let offset := max 0 (resumeAt - newBase)
        let s := { s with currentIndex := newIndex }
        { s with pending := s.pending ++ [offset] }

/-- The play/pause button listener (script.js lines 379-399). -/
def handlePlayPause (s : Sys) : Sys :=
  if s.currentText.isEmpty then s
  else if !s.isPlaying then
    if s.enginePaused then { s with enginePaused := false, isPlaying := true }
    else playFromCurrentChunk s 0
  else
    let s := if !s.engine.isEmpty then { s with enginePaused := true } else s
    { s with isPlaying := false }

/-- The stop button listener (script.js lines 401-409). -/
def handleStop (s : Sys) : Sys :=
  let s := cancelEngine s
  { s with isPlaying := false, currentIndex := 0, selection := some (0, 0) }

/-- One DOM / engine / timer callback, as dispatched by the listeners of
script.js. -/
inductive Ev where
  /-- a non-PDF file load calling `setTextViewer` (lines 456-463) -/
  | loadText (t : List Char)
  /-- the `pasteBox` input listener (lines 471-476) -/
  | inputText (t : List Char)
  /-- the play/pause button (lines 379-399) -/
  | playPause
  /-- the stop button (lines 401-409) -/
  | stopBtn
  /-- the `voiceSelect` change listener: forced restart (lines 412-415) -/
  | voiceChange
  /-- the `rateSlider` 'input' listener (live drag): label only, no restart (lines 422-424) -/
  | rateInput (v : Option ℚ)
  /-- the `rateSlider` 'change' listener (committed): restart, not forced (lines 418-421) -/
  | rateChange (v : Option ℚ)
  /-- the `volumeSlider` 'change' listener: restart, not forced (lines 425-427) -/
  | volumeChange (v : Option ℚ)
  /-- a scheduled `setTimeout` callback firing (the `i`-th pending one) -/
  | timerFire (i : Nat)
  /-- the engine ends utterance `id` -/
  | engineEnd (id : Nat)
  /-- the engine reports an error on utterance `id` -/
  | engineError (id : Nat)
  /-- the engine fires a boundary event on utterance `id` -/
  | boundary (id : Nat) (charIndex charLength : Option Nat)
  /-- a double-click jump to character index `idx` (lines 172-204) -/
  | jump (idx : Int)
deriving DecidableEq, Repr

/-- The event dispatcher: one step of the script per callback invocation. -/
def step (s : Sys) (e : Ev) : Sys :=
  match e with
  | .loadText t => setTextViewer s t
  | .inputText t => setTextViewer s t
  | .playPause => handlePlayPause s
  | .stopBtn => handleStop s
  | .voiceChange => restartWithNewSettingsFromCurrentPosition s true
  | .rateInput v => { s with rateSlider := v }
  | .rateChange v => restartWithNewSettingsFromCurrentPosition { s with rateSlider := v } false
  | .volumeChange v => restartWithNewSettingsFromCurrentPosition { s with volumeSlider := v } false
  | .timerFire i =>
    match s.pending[i]? with
    | some off => playFromCurrentChunk { s with pending := s.pending.eraseIdx i } off
    | none => s
  | .engineEnd id => handleEngineEnd s id
  | .engineError id => handleEngineError s id
  | .boundary id ci cl =>
    match findUtt s id with
    | some u => onboundaryHandler s u.baseOffset ci cl
    | none => s
  | .jump idx => jumpToCharIndex s idx

/-- Run a sequence of callbacks. -/
def run (s : Sys) (es : List Ev) : Sys :=
  es.foldl step s

/-! ### Basic facts about `speakChunk` -/

theorem speakChunk_nextId (s : Sys) (t : List Char) (b : Int) :
    (speakChunk s t b).nextId = s.nextId + 1 := by
  cases h : s.uttVar <;> simp [speakChunk, cancelEngine, h]

theorem speakChunk_lastBoundary (s : Sys) (t : List Char) (b : Int) :
    (speakChunk s t b).lastBoundaryGlobalStart = b := by
  cases h : s.uttVar <;> simp [speakChunk, cancelEngine, h]

theorem speakChunk_getLast? (s : Sys) (t : List Char) (b : Int) :
    (speakChunk s t b).utts.getLast? = some
      { id := s.nextId, text := t,
        rate := jsNumOr1 s.rateSlider, volume := jsNumOr1 s.volumeSlider,
        baseOffset := b, onendSet := true, onerrorSet := true } := by
  cases h : s.uttVar <;>
    simp [speakChunk, cancelEngine, h, List.getLast?_concat]

/-! ### Claim theorems -/

/-- Claim C1. For every document text and the fixed chunk size (3000), rebuilding
chunks yields a list whose concatenation equals the document text exactly,
whose length equals `ceil(len(text)/chunkSize)` (0 when the text is empty),
and in which chunk `i` starts at global offset `i * chunkSize`: chunk `i`
is the slice of the text beginning at `i * chunkSize`, and the chunks before
it concatenate to exactly the first `i * chunkSize` characters. -/
theorem buildChunks_rebuild_exact (text : List Char) :
    (buildChunks text).flatten = text ∧
    (buildChunks text).length =
      (text.length + internalChunkSize - 1) / internalChunkSize ∧
    (text = [] → (buildChunks text).length = 0) ∧
    (∀ i, i < (buildChunks text).length →
      (buildChunks text)[i]? =
        some ((text.drop (i * internalChunkSize)).take internalChunkSize)) ∧
    (∀ i, ((buildChunks text).take i).flatten =
      text.take (i * internalChunkSize)) := by
  have hcs : 0 < internalChunkSize := by norm_num [internalChunkSize]
  refine ⟨join_buildChunksFrom _ hcs text, length_buildChunksFrom _ hcs text,
    ?_, get?_buildChunksFrom _ hcs text, take_flatten_buildChunksFrom _ hcs text⟩
  rintro rfl
  simp [buildChunks, buildChunksFrom_nil]

theorem buildChunks_rebuild_exact_witness :
    (buildChunks ['a', 'b', 'c']).flatten = ['a', 'b', 'c'] ∧
    0 < (buildChunks ['a', 'b', 'c']).length ∧
    (buildChunks ['a', 'b', 'c'])[0]? =
      some (((['a', 'b', 'c'] : List Char).drop (0 * internalChunkSize)).take
        internalChunkSize) :=
  ⟨(buildChunks_rebuild_exact ['a', 'b', 'c']).1, by decide,
    (buildChunks_rebuild_exact ['a', 'b', 'c']).2.2.2.1 0 (by decide)⟩

/-- Claim C9. When the volume slider (resp. rate slider) holds the value 0 or a
non-numeric value, the next speech request created by `speakChunk` is issued
with volume 1 (resp. rate 1): `Number(x) || 1` maps both `0` and `NaN` to `1`,
so setting the volume to 0 does not mute playback. -/
theorem speakChunk_zero_volume_is_full (s : Sys) (t : List Char) (b : Int) :
    (s.volumeSlider = some 0 ∨ s.volumeSlider = none →
      ((speakChunk s t b).utts.getLast?).map Utt.volume = some 1) ∧
    (s.rateSlider = some 0 ∨ s.rateSlider = none →
      ((speakChunk s t b).utts.getLast?).map Utt.rate = some 1) := by
  rw [speakChunk_getLast?]
  constructor
  · rintro (h | h) <;> simp [h, jsNumOr1]
  · rintro (h | h) <;> simp [h, jsNumOr1]

theorem speakChunk_zero_volume_is_full_witness :
    (((speakChunk { initState with volumeSlider := some 0, rateSlider := none }
        ['h', 'i'] 0).utts.getLast?).map Utt.volume = some 1) ∧
    (((speakChunk { initState with volumeSlider := some 0, rateSlider := none }
        ['h', 'i'] 0).utts.getLast?).map Utt.rate = some 1) :=
  ⟨(speakChunk_zero_volume_is_full
      { initState with volumeSlider := some 0, rateSlider := none }
      ['h', 'i'] 0).1 (Or.inl rfl),
    (speakChunk_zero_volume_is_full
      { initState with volumeSlider := some 0, rateSlider := none }
      ['h', 'i'] 0).2 (Or.inr rfl)⟩

/-- Claim C10. For every call of `playFromCurrentChunk` with a valid chunk index,
the requested in-chunk offset is clamped into `[0, len(chunk)]` before
slicing, so the spoken text is always a well-defined suffix of the chunk, and
the base offset tagged on the request equals
`chunkIndex * chunkSize + clampedOffset`, even when the caller passes an
offset outside the chunk. -/
theorem playFromCurrentChunk_clamps_offset (s : Sys) (off : Int)
    (h0 : 0 ≤ s.currentIndex)
    (h1 : s.currentIndex < (s.currentChunks.length : Int)) :
    ((playFromCurrentChunk s off).utts.getLast?).map Utt.text =
      some (((s.currentChunks[s.currentIndex.toNat]?).getD []).drop
        (max 0 (min off ((((s.currentChunks[s.currentIndex.toNat]?).getD
          []).length : Int)))).toNat) ∧
    ((playFromCurrentChunk s off).utts.getLast?).map Utt.baseOffset =
      some (s.currentIndex * (internalChunkSize : Int) +
        max 0 (min off ((((s.currentChunks[s.currentIndex.toNat]?).getD
          []).length : Int)))) ∧
    (0 : Int) ≤ max 0 (min off
      ((((s.currentChunks[s.currentIndex.toNat]?).getD []).length : Int))) ∧
    max 0 (min off ((((s.currentChunks[s.currentIndex.toNat]?).getD
      []).length : Int))) ≤
      (((s.currentChunks[s.currentIndex.toNat]?).getD []).length : Int) ∧
    (((s.currentChunks[s.currentIndex.toNat]?).getD []).drop
        (max 0 (min off ((((s.currentChunks[s.currentIndex.toNat]?).getD
          []).length : Int)))).toNat) <:+
      ((s.currentChunks[s.currentIndex.toNat]?).getD []) := by
  have hne' : s.currentChunks ≠ [] := by
    intro hnil
    rw [hnil] at h1
    simp at h1
    omega
  have hne : ¬s.currentChunks.isEmpty := by
    simpa [List.isEmpty_iff] using hne'
  have hnn : ¬s.currentIndex < 0 := by omega
  have hle : ¬((s.currentChunks.length : Int) ≤ s.currentIndex) := by omega
  rw [playFromCurrentChunk]
  simp only [hne, if_false, hnn, if_false, hle, if_false, Bool.false_eq_true]
  rw [speakChunk_getLast?]
  refine ⟨rfl, rfl, le_max_left _ _, ?_, List.drop_suffix _ _⟩
  have hlen : (0 : Int) ≤
      ((((s.currentChunks[s.currentIndex.toNat]?).getD []).length : Int)) := by
    positivity
  omega

theorem playFromCurrentChunk_clamps_offset_witness :
    ((playFromCurrentChunk
        { initState with
          currentText := ['a', 'b'], currentChunks := [['a', 'b']] }
        5).utts.getLast?).map Utt.baseOffset =
      some ((0 : Int) * (internalChunkSize : Int) +
        max 0 (min 5 (((([['a', 'b']] : List (List Char))[
          ((0 : Int)).toNat]?).getD []).length : Int))) :=
  (playFromCurrentChunk_clamps_offset
    { initState with currentText := ['a', 'b'], currentChunks := [['a', 'b']] }
    5 (by decide) (by decide)).2.1

/-- Whether an event is a speech-engine boundary event. -/
def isBoundaryEv : Ev → Bool
  | .boundary _ _ _ => true
  | _ => false

/-! ### Which steps can move the tracked cursor -/

theorem playFrom_lastBoundary_or (s : Sys) (off : Int) :
    (playFromCurrentChunk s off).lastBoundaryGlobalStart =
      s.lastBoundaryGlobalStart ∨
    (playFromCurrentChunk s off).nextId = s.nextId + 1 := by
  rw [playFromCurrentChunk]
  split_ifs <;>
    first
      | exact Or.inl rfl
      | exact Or.inr (speakChunk_nextId _ _ _)

theorem restart_lastBoundary (s : Sys) (f : Bool) :
    (restartWithNewSettingsFromCurrentPosition s f).lastBoundaryGlobalStart =
      s.lastBoundaryGlobalStart := by
  rw [restartWithNewSettingsFromCurrentPosition]
  cases h : s.uttVar <;> simp only [h] <;> split_ifs <;> rfl

theorem handleEngineEnd_lastBoundary (s : Sys) (id : Nat) :
    (handleEngineEnd s id).lastBoundaryGlobalStart =
      s.lastBoundaryGlobalStart := by
  rw [handleEngineEnd]
  cases hf : findUtt { s with engine := s.engine.erase id } id with
  | none => rfl
  | some u =>
    by_cases hu : u.onendSet = true
    · simp only [hu, if_true, onendClosure]
      split_ifs <;> rfl
    · simp only [Bool.not_eq_true] at hu
      simp only [hu]
      rfl

theorem handleEngineError_lastBoundary (s : Sys) (id : Nat) :
    (handleEngineError s id).lastBoundaryGlobalStart =
      s.lastBoundaryGlobalStart := by
  rw [handleEngineError]
  cases hf : findUtt { s with engine := s.engine.erase id } id with
  | none => rfl
  | some u =>
    by_cases hu : u.onerrorSet = true
    · simp only [hu, if_true]
    · simp only [Bool.not_eq_true] at hu
      simp only [hu]
      rfl

/-- The only steps that move `lastBoundaryGlobalStart` are boundary events and
steps that issue a new speech request (and then set it to that request's base
offset, see `speakChunk_lastBoundary`). -/
theorem step_lastBoundary_writers (s : Sys) (e : Ev)
    (h : (step s e).lastBoundaryGlobalStart ≠ s.lastBoundaryGlobalStart) :
    isBoundaryEv e = true ∨ (step s e).nextId = s.nextId + 1 := by
  cases e with
  | loadText t => exact absurd rfl h
  | inputText t => exact absurd rfl h
  | playPause =>
    simp only [step, handlePlayPause] at h ⊢
    split_ifs at h ⊢ with h1 h2 h3
    · exact absurd rfl h
    · exact absurd rfl h
    · rcases playFrom_lastBoundary_or s 0 with h' | h'
      · exact absurd h' h
      · exact Or.inr h'
    · exact absurd rfl h
    · exact absurd rfl h
  | stopBtn => exact absurd rfl h
  | voiceChange => exact absurd (restart_lastBoundary s true) h
  | rateInput v => exact absurd rfl h
  | rateChange v =>
    exact absurd (restart_lastBoundary { s with rateSlider := v } false) h
  | volumeChange v =>
    exact absurd (restart_lastBoundary { s with volumeSlider := v } false) h
  | timerFire i =>
    simp only [step] at h ⊢
    cases hp : s.pending[i]? with
    | none => rw [hp] at h; exact absurd rfl h
    | some off =>
      rw [hp] at h
      rcases playFrom_lastBoundary_or { s with pending := s.pending.eraseIdx i }
          off with h' | h'
      · exact absurd h' h
      · exact Or.inr h'
  | engineEnd id => exact absurd (handleEngineEnd_lastBoundary s id) h
  | engineError id => exact absurd (handleEngineError_lastBoundary s id) h
  | boundary id ci cl => exact Or.inl rfl
  | jump idx =>
    simp only [step, jumpToCharIndex] at h ⊢
    split_ifs at h ⊢ with h1
    · exact absurd rfl h
    · rcases playFrom_lastBoundary_or _ _ with h' | h'
      · exact absurd h' h
      · exact Or.inr h'

/-- Claim C5. For every boundary event carrying a chunk-relative character
index, the tracked cursor is set to `globalStart = baseOffset + relativeIndex`
with the highlighted span ending at `globalStart + relativeLength`
(`relativeLength` defaulting to 1 when the engine omits it); and the cursor is
initialized to an utterance's base offset when the utterance is issued, and is
only ever moved by boundary events or by issuing a new speech request — so if
no boundary event fires during a chunk's utterance, the tracked cursor equals
that utterance's base offset and resume degrades to chunk granularity rather
than failing. -/
theorem boundary_updates_tracked_cursor :
    (∀ (s : Sys) (base : Int) (ci : Nat) (cl : Option Nat),
      (onboundaryHandler s base (some ci) cl).lastBoundaryGlobalStart =
        base + ci ∧
      (onboundaryHandler s base (some ci) cl).selection =
        some (base + ci, base + ci + jsLenOr1 cl)) ∧
    (∀ (s : Sys) (t : List Char) (b : Int),
      (speakChunk s t b).lastBoundaryGlobalStart = b) ∧
    (∀ (s : Sys) (e : Ev),
      (step s e).lastBoundaryGlobalStart ≠ s.lastBoundaryGlobalStart →
        isBoundaryEv e = true ∨ (step s e).nextId = s.nextId + 1) :=
  ⟨fun _ _ _ _ => ⟨rfl, rfl⟩, speakChunk_lastBoundary, step_lastBoundary_writers⟩

theorem boundary_updates_tracked_cursor_witness :
    (onboundaryHandler initState 7 (some 2) none).lastBoundaryGlobalStart =
      7 + 2 ∧
    (speakChunk initState ['a'] 5).lastBoundaryGlobalStart = 5 ∧
    (isBoundaryEv (.boundary 0 (some 3) (some 2)) = true ∨
      (step (run initState [.inputText ['h', 'i'], .playPause])
          (.boundary 0 (some 3) (some 2))).nextId =
        (run initState [.inputText ['h', 'i'], .playPause]).nextId + 1) :=
  ⟨(boundary_updates_tracked_cursor.1 initState 7 2 none).1,
    boundary_updates_tracked_cursor.2.1 initState ['a'] 5,
    boundary_updates_tracked_cursor.2.2 _ _ (by decide)⟩

/-- Claim C4 counterexample. After `pause()` (second `playPause` click), a voice
change — whose listener calls the restart helper with `force = true` — followed
by its settle-delay timer *does* restart playback, contradicting the claim
that no settings change restarts playback after a pause. -/
theorem pause_then_voiceChange_restarts :
    (run initState [.inputText ['h', 'i'], .playPause, .playPause]).isPlaying
      = false ∧
    (run initState [.inputText ['h', 'i'], .playPause, .playPause,
      .voiceChange, .timerFire 0]).isPlaying = true := by
  constructor <;> decide

/-- Claim C4, amended. After `pause()`, a committed rate or volume change does
not restart playback: while the state is not Playing and the change is not
forced, it only records the new slider value and is otherwise a no-op.  The
voice-change listener, however, always forces a restart, so after `pause()` a
voice change does resume playback (see the counterexample); playback otherwise
restarts only via an explicit jump or `play()`. -/
theorem settingsChange_noop_when_not_playing (s : Sys) (v : Option ℚ)
    (h : s.isPlaying = false) :
    step s (.rateChange v) = { s with rateSlider := v } ∧
    step s (.volumeChange v) = { s with volumeSlider := v } := by
  constructor <;>
    · simp only [step, restartWithNewSettingsFromCurrentPosition, h]
      split_ifs <;> simp_all

theorem settingsChange_noop_when_not_playing_witness :
    step initState (.rateChange (some 2)) = { initState with rateSlider := some 2 } ∧
    step initState (.volumeChange (some 2)) =
      { initState with volumeSlider := some 2 } :=
  settingsChange_noop_when_not_playing initState (some 2) rfl

/-- Claim C7 counterexample. Loading new text via the paste box while playing
(here after a boundary event put the tracked cursor at 2) leaves the playing
flag set and the last confirmed offset at 2: the playback cursor is *not*
reset to `{0, 0, stopped}` — only the chunk index is reset. -/
theorem load_does_not_stop_playback :
    (step (run initState [.inputText ['h', 'e', 'l', 'l', 'o'], .playPause,
        .boundary 0 (some 2) none]) (.inputText ['x', 'y'])).isPlaying = true ∧
    (step (run initState [.inputText ['h', 'e', 'l', 'l', 'o'], .playPause,
        .boundary 0 (some 2) none])
      (.inputText ['x', 'y'])).lastBoundaryGlobalStart = 2 := by
  constructor <;> decide

/-- Claim C7, amended. Loading a document (load/paste/edit) replaces the
document text wholesale, resets the current chunk index to 0 and rebuilds the
chunks from the new text; it does not stop playback, cancel in-flight speech,
or reset the last confirmed global offset. -/
theorem load_replaces_text_and_rebuilds (s : Sys) (t : List Char) :
    step s (.loadText t) =
      { s with
        currentText := t, currentIndex := 0, currentChunks := buildChunks t } ∧
    step s (.inputText t) =
      { s with
        currentText := t, currentIndex := 0, currentChunks := buildChunks t } := by
  constructor <;> rfl

/-- Claim C6. On natural completion of a chunk's utterance (an `engineEnd`
callback whose `onend` is still attached), the player increments the chunk
index and, only if still in playing state and the incremented index is within
the chunks, schedules the next chunk's speech with in-chunk offset 0 after a
brief delay; otherwise — in particular when the incremented index reaches the
chunk count — the playing flag is cleared and no error is reported. -/
theorem autoAdvance_on_end (s : Sys) (id : Nat) (u : Utt)
    (hu : findUtt s id = some u) (hend : u.onendSet = true) :
    (step s (.engineEnd id)).currentIndex = s.currentIndex + 1 ∧
    (step s (.engineEnd id)).errorCount = s.errorCount ∧
    (s.currentIndex + 1 < (s.currentChunks.length : Int) ∧ s.isPlaying = true →
      (step s (.engineEnd id)).pending = s.pending ++ [0] ∧
      (step s (.engineEnd id)).isPlaying = true) ∧
    (¬(s.currentIndex + 1 < (s.currentChunks.length : Int) ∧
        s.isPlaying = true) →
      (step s (.engineEnd id)).isPlaying = false ∧
      (step s (.engineEnd id)).pending = s.pending) := by
  have hu' : findUtt { s with engine := s.engine.erase id } id = some u := hu
  by_cases hc : s.currentIndex + 1 < (s.currentChunks.length : Int) ∧
      s.isPlaying = true
  · simp only [step, handleEngineEnd, hu', hend, if_true, onendClosure]
    rw [if_pos hc]
    exact ⟨rfl, rfl, fun _ => ⟨rfl, hc.2⟩, fun h => absurd hc h⟩
  · simp only [step, handleEngineEnd, hu', hend, if_true, onendClosure]
    rw [if_neg (by simpa using hc)]
    exact ⟨rfl, rfl, fun h => absurd h hc, fun _ => ⟨rfl, rfl⟩⟩

theorem autoAdvance_on_end_witness :
    (step { initState with
            currentText := ['a', 'b'], currentChunks := [['a'], ['b']],
            isPlaying := true,
            utts := [{ id := 0, text := ['a'], rate := 1, volume := 1, baseOffset := 0, onendSet := true, onerrorSet := true }],
            uttVar := some 0, engine := [0], nextId := 1 }
      (.engineEnd 0)).currentIndex =
      ({ initState with
         currentText := ['a', 'b'], currentChunks := [['a'], ['b']],
         isPlaying := true,
         utts := [{ id := 0, text := ['a'], rate := 1, volume := 1, baseOffset := 0, onendSet := true, onerrorSet := true }],
         uttVar := some 0, engine := [0], nextId := 1 } : Sys).currentIndex + 1 ∧
    (step { initState with
            currentText := ['a', 'b'], currentChunks := [['a'], ['b']],
            isPlaying := true,
            utts := [{ id := 0, text := ['a'], rate := 1, volume := 1, baseOffset := 0, onendSet := true, onerrorSet := true }],
            uttVar := some 0, engine := [0], nextId := 1 }
      (.engineEnd 0)).pending =
      ({ initState with
         currentText := ['a', 'b'], currentChunks := [['a'], ['b']],
         isPlaying := true,
         utts := [{ id := 0, text := ['a'], rate := 1, volume := 1, baseOffset := 0, onendSet := true, onerrorSet := true }],
         uttVar := some 0, engine := [0], nextId := 1 } : Sys).pending ++ [0] :=
  ⟨(autoAdvance_on_end
      { initState with
        currentText := ['a', 'b'], currentChunks := [['a'], ['b']],
        isPlaying := true,
        utts := [{ id := 0, text := ['a'], rate := 1, volume := 1, baseOffset := 0, onendSet := true, onerrorSet := true }],
        uttVar := some 0, engine := [0], nextId := 1 }
      0 ⟨0, ['a'], 1, 1, 0, true, true⟩ rfl rfl).1,
    ((autoAdvance_on_end
      { initState with
        currentText := ['a', 'b'], currentChunks := [['a'], ['b']],
        isPlaying := true,
        utts := [{ id := 0, text := ['a'], rate := 1, volume := 1, baseOffset := 0, onendSet := true, onerrorSet := true }],
        uttVar := some 0, engine := [0], nextId := 1 }
      0 ⟨0, ['a'], 1, 1, 0, true, true⟩ rfl rfl).2.2.1
      (by constructor <;> decide)).1⟩

/-! ### Jump resolution (C2, C8) -/

theorem speakChunk_isPlaying (s : Sys) (t : List Char) (b : Int) :
    (speakChunk s t b).isPlaying = s.isPlaying := by
  cases h : s.uttVar <;> simp [speakChunk, cancelEngine, h]

theorem speakChunk_currentIndex (s : Sys) (t : List Char) (b : Int) :
    (speakChunk s t b).currentIndex = s.currentIndex := by
  cases h : s.uttVar <;> simp [speakChunk, cancelEngine, h]

theorem buildChunks_ne_nil (text : List Char) (ht : text ≠ []) :
    buildChunks text ≠ [] := by
  have hcs : 0 < internalChunkSize := by norm_num [internalChunkSize]
  rw [buildChunks, buildChunksFrom_cons _ hcs _ ht]
  simp

/-- In the good case (some chunks, index in range), `playFromCurrentChunk`
issues exactly one speech request for the clamped suffix of the current
chunk. -/
theorem playFrom_speaks (s : Sys) (off : Int)
    (h0 : 0 ≤ s.currentIndex)
    (h1 : s.currentIndex < (s.currentChunks.length : Int)) :
    playFromCurrentChunk s off =
      speakChunk { s with isPlaying := true, restartInFlight := false }
        (((s.currentChunks[s.currentIndex.toNat]?).getD []).drop
          (max 0 (min off
            ((((s.currentChunks[s.currentIndex.toNat]?).getD []).length : Int)))).toNat)
        (s.currentIndex * (internalChunkSize : Int) +
          max 0 (min off
            ((((s.currentChunks[s.currentIndex.toNat]?).getD []).length : Int)))) := by
  have hne : ¬s.currentChunks.isEmpty := by
    intro hnil
    rw [List.isEmpty_iff] at hnil
    rw [hnil] at h1
    simp at h1
    omega
  have hnn : ¬s.currentIndex < 0 := by omega
  have hle : ¬((s.currentChunks.length : Int) ≤ s.currentIndex) := by omega
  rw [playFromCurrentChunk]
  simp only [hne, if_false, hnn, if_false, hle, if_false, Bool.false_eq_true]



theorem jump_resolves (s : Sys) (idx : Int)
    (hch : s.currentChunks = buildChunks s.currentText)
    (ht : s.currentText ≠ []) :
    (jumpToCharIndex s idx).currentIndex =
      (max 0 (min ((s.currentText.length : Int) - 1) idx)).fdiv
        (internalChunkSize : Int) ∧
    (jumpToCharIndex s idx).lastBoundaryGlobalStart =
      max 0 (min ((s.currentText.length : Int) - 1) idx) ∧
    ((jumpToCharIndex s idx).utts.getLast?).map Utt.baseOffset =
      some (max 0 (min ((s.currentText.length : Int) - 1) idx)) ∧
    (jumpToCharIndex s idx).isPlaying = true := by
  have hcs : 0 < internalChunkSize := by norm_num [internalChunkSize]
  have hL1 : 0 < s.currentText.length := List.length_pos.mpr ht
  set L := s.currentText.length with hL
  set c : Int := max 0 (min ((L : Int) - 1) idx) with hc
  have hc0 : 0 ≤ c := le_max_left _ _
  have hcL : c ≤ (L : Int) - 1 := by
    apply max_le
    · omega
    · exact min_le_left _ _
  set n : Nat := c.toNat with hn
  have hnc : (n : Int) = c := Int.toNat_of_nonneg hc0
  have hnL : n < L := by omega
  set i := n / internalChunkSize with hi
  have hile : i * internalChunkSize ≤ n := Nat.div_mul_le_self n _
  have hmod : i * internalChunkSize + n % internalChunkSize = n := by
    rw [hi, Nat.mul_comm]
    exact Nat.div_add_mod n _
  have hmodlt : n % internalChunkSize < internalChunkSize := Nat.mod_lt n hcs
  have hfdiv : c.fdiv (internalChunkSize : Int) = (i : Int) := by
    rw [Int.fdiv_eq_ediv _ (by positivity), ← hnc, ← Int.natCast_div]
  have hcount : (buildChunks s.currentText).length =
      (L + internalChunkSize - 1) / internalChunkSize := by
    rw [buildChunks]
    exact length_buildChunksFrom _ hcs _
  have hicount : i < (buildChunks s.currentText).length := by
    rw [hcount]
    have h1 : i ≤ (L - 1) / internalChunkSize := by
      apply Nat.div_le_div_right
      omega
    have h2 : (L + internalChunkSize - 1) / internalChunkSize =
        (L - 1) / internalChunkSize + 1 := by
      have h3 : L + internalChunkSize - 1 = (L - 1) + internalChunkSize := by omega
      rw [h3, Nat.add_div_right _ hcs]
    omega
  have hchunk : (buildChunks s.currentText)[i]? =
      some ((s.currentText.drop (i * internalChunkSize)).take internalChunkSize) :=
    get?_buildChunksFrom _ hcs _ i hicount
  have hemp : s.currentText.isEmpty = false := by
    simpa [List.isEmpty_iff] using ht
  have hoff : max 0 (c - (i : Int) * (internalChunkSize : Int)) =
      ((n % internalChunkSize : Nat) : Int) := by
    rw [← hnc]
    push_cast
    omega
  have hjump : jumpToCharIndex s idx =
      playFromCurrentChunk { s with currentIndex := (i : Int) }
        ((n % internalChunkSize : Nat) : Int) := by
    simp only [jumpToCharIndex, hemp, Bool.false_eq_true, if_false, ← hc,
      hfdiv, hoff]
  have h0i : (0 : Int) ≤ ((i : Nat) : Int) := by positivity
  have h1i : ((i : Nat) : Int) <
      (({ s with currentIndex := (i : Int) } : Sys).currentChunks.length : Int) := by
    show ((i : Nat) : Int) < (s.currentChunks.length : Int)
    rw [hch]
    exact_mod_cast hicount
  rw [hjump, playFrom_speaks _ _ h0i h1i]
  -- now compute the chunk and the offsets
  have htn : ((i : Int)).toNat = i := Int.toNat_natCast i
  have hchunkD : (({ s with currentIndex := (i : Int) } : Sys).currentChunks[
      (((i : Int)).toNat)]?).getD [] =
      (s.currentText.drop (i * internalChunkSize)).take internalChunkSize := by
    show (s.currentChunks[(((i : Int)).toNat)]?).getD [] = _
    rw [htn, hch, hchunk]
    rfl
  have hlen : ((s.currentText.drop (i * internalChunkSize)).take
      internalChunkSize).length = min internalChunkSize (L - i * internalChunkSize) := by
    rw [List.length_take, List.length_drop]
  have hclamp : max 0 (min ((n % internalChunkSize : Nat) : Int)
      ((((s.currentText.drop (i * internalChunkSize)).take
        internalChunkSize).length : Int))) = ((n % internalChunkSize : Nat) : Int) := by
    rw [hlen]
    push_cast
    omega
  have hbase : ((i : Nat) : Int) * (internalChunkSize : Int) +
      ((n % internalChunkSize : Nat) : Int) = c := by
    rw [← hnc]
    push_cast
    omega
  rw [hchunkD, hclamp]
  refine ⟨?_, ?_, ?_, ?_⟩
  · rw [speakChunk_currentIndex, hfdiv]
  · rw [speakChunk_lastBoundary]
    exact hbase
  · rw [speakChunk_getLast?]
    exact congrArg some hbase
  · rw [speakChunk_isPlaying]



/-- Claim C2. For every global offset `o` with `0 ≤ o < len(text)`, a jump to
`o` resolves to chunk index `floor(o / chunkSize)`, and the speech request it
issues is tagged with base offset `o` (that is, chunk index times chunk size
plus the in-chunk offset `o - floor(o/chunkSize) * chunkSize`), so the global
address read back from the tracked cursor equals `o`.  In particular, for a
7000-character document jumping to 3500 resolves to chunk index 1 and
in-chunk offset 500 (see the witness). -/
theorem jumpTo_offset_roundtrip (s : Sys) (o : Int)
    (hch : s.currentChunks = buildChunks s.currentText)
    (h0 : 0 ≤ o) (h1 : o < (s.currentText.length : Int)) :
    (jumpToCharIndex s o).currentIndex = o.fdiv (internalChunkSize : Int) ∧
    ((jumpToCharIndex s o).utts.getLast?).map Utt.baseOffset = some o ∧
    (jumpToCharIndex s o).lastBoundaryGlobalStart = o ∧
    (jumpToCharIndex s o).currentIndex * (internalChunkSize : Int) +
        (o - (jumpToCharIndex s o).currentIndex * (internalChunkSize : Int)) = o := by
  have ht : s.currentText ≠ [] := by
    intro h
    rw [h] at h1
    simp at h1
    omega
  have hclamp : max 0 (min ((s.currentText.length : Int) - 1) o) = o := by omega
  obtain ⟨ha, hb, hc', _⟩ := jump_resolves s o hch ht
  rw [hclamp] at ha hb hc'
  exact ⟨ha, hc', hb, by ring⟩

theorem jumpTo_offset_roundtrip_witness :
    (jumpToCharIndex
        { initState with
          currentText := List.replicate 7000 'a',
          currentChunks := buildChunks (List.replicate 7000 'a') }
        3500).currentIndex = 1 ∧
    ((jumpToCharIndex
        { initState with
          currentText := List.replicate 7000 'a',
          currentChunks := buildChunks (List.replicate 7000 'a') }
        3500).utts.getLast?).map Utt.baseOffset = some 3500 ∧
    (3500 : Int) - 1 * (internalChunkSize : Int) = 500 ∧
    (buildChunks (List.replicate 7000 'a')).length = 3 := by
  have h := jumpTo_offset_roundtrip
    { initState with
      currentText := List.replicate 7000 'a',
      currentChunks := buildChunks (List.replicate 7000 'a') }
    3500 (by with_reducible rfl) (by norm_num)
    (by
      show (3500 : Int) < ((List.replicate 7000 'a').length : Int)
      rw [List.length_replicate]
      norm_num)
  refine ⟨?_, h.2.1, by norm_num [internalChunkSize], ?_⟩
  · rw [h.1]
    decide
  · rw [buildChunks, length_buildChunksFrom _ (by norm_num [internalChunkSize])]
    rw [List.length_replicate]
    norm_num [internalChunkSize]

/-- Claim C8. Empty or degenerate input is treated as a no-op signaling
nothing to play, never a crash: with no text loaded (hence zero chunks) a
play request returns with the playing flag cleared and issues no speech
request (no new utterance, engine and timers untouched), a jump on an empty
document does nothing at all, and a jump with any — possibly out-of-range —
offset on a loaded document clamps it and starts playback inside the
document: the issued request's base offset lies in `[0, len)`. -/
theorem degenerate_input_noop (s : Sys) (off idx : Int)
    (hempty : s.currentText = []) (hchunks : s.currentChunks = []) :
    ((playFromCurrentChunk s off).isPlaying = false ∧
      (playFromCurrentChunk s off).nextId = s.nextId ∧
      (playFromCurrentChunk s off).engine = s.engine ∧
      (playFromCurrentChunk s off).pending = s.pending) ∧
    jumpToCharIndex s idx = s ∧
    (∀ (s' : Sys) (j : Int), s'.currentChunks = buildChunks s'.currentText →
      s'.currentText ≠ [] →
      ((jumpToCharIndex s' j).utts.getLast?).map Utt.baseOffset =
        some (max 0 (min ((s'.currentText.length : Int) - 1) j)) ∧
      0 ≤ max 0 (min ((s'.currentText.length : Int) - 1) j) ∧
      max 0 (min ((s'.currentText.length : Int) - 1) j) <
        (s'.currentText.length : Int)) := by
  refine ⟨?_, ?_, ?_⟩
  · rw [playFromCurrentChunk]
    split_ifs <;>
      first
        | exact ⟨rfl, rfl, rfl, rfl⟩
        | (exfalso; simp_all [buildChunks, buildChunksFrom_nil])
  · rw [jumpToCharIndex, if_pos (by simp [hempty])]
  · intro s' j hch' ht'
    obtain ⟨_, _, hb', _⟩ := jump_resolves s' j hch' ht'
    have hpos := List.length_pos.mpr ht'
    refine ⟨hb', le_max_left _ _, ?_⟩
    have h1 : min ((s'.currentText.length : Int) - 1) j ≤
        (s'.currentText.length : Int) - 1 := min_le_left _ _
    omega

theorem degenerate_input_noop_witness :
    (playFromCurrentChunk initState 3).isPlaying = false ∧
    jumpToCharIndex initState (-5) = initState ∧
    ((jumpToCharIndex
        { initState with
          currentText := ['h', 'i'], currentChunks := buildChunks ['h', 'i'] }
        99).utts.getLast?).map Utt.baseOffset =
      some (max 0 (min (((['h', 'i'] : List Char).length : Int) - 1) 99)) :=
  ⟨((degenerate_input_noop initState 3 (-5) rfl rfl).1).1,
    (degenerate_input_noop initState 3 (-5) rfl rfl).2.1,
    ((degenerate_input_noop initState 3 (-5) rfl rfl).2.2
      { initState with
        currentText := ['h', 'i'], currentChunks := buildChunks ['h', 'i'] }
      99 rfl (by decide)).1⟩

/-! ### The at-most-one-outstanding-request invariant (C3) -/

/-- The safety invariant of the speech channel: the engine queue holds at
most one utterance; anything queued is the utterance currently held by the
`utterance` variable; every other utterance object has had its
`onend`/`onerror` handlers nulled; and ids are allocated in order. -/
def Inv (s : Sys) : Prop :=
  s.engine.length ≤ 1 ∧
  (∀ id ∈ s.engine, s.uttVar = some id) ∧
  (∀ u ∈ s.utts, s.uttVar ≠ some u.id →
    u.onendSet = false ∧ u.onerrorSet = false) ∧
  (∀ u ∈ s.utts, u.id < s.nextId) ∧
  (∀ id, s.uttVar = some id → id < s.nextId)

theorem inv_initState : Inv initState := by
  refine ⟨?_, ?_, ?_, ?_, ?_⟩ <;> simp [initState]

theorem speakChunk_inv (s : Sys) (t : List Char) (b : Int) (h : Inv s) :
    Inv (speakChunk s t b) := by
  obtain ⟨h1, h2, h3, h4, h5⟩ := h
  cases hv : s.uttVar with
  | none =>
    have hengine : s.engine = [] := by
      cases he : s.engine with
      | nil => rfl
      | cons a l =>
        have := h2 a (by rw [he]; exact List.mem_cons_self a l)
        rw [hv] at this
        exact absurd this (by simp)
    simp only [speakChunk, hv]
    refine ⟨?_, ?_, ?_, ?_, ?_⟩
    · simp [hengine]
    · intro j hj
      rw [hengine] at hj
      simp only [List.nil_append, List.mem_singleton] at hj
      simp [hj]
    · intro u hu hne
      rw [List.mem_append] at hu
      rcases hu with hu | hu
      · exact h3 u hu (by rw [hv]; simp)
      · rw [List.mem_singleton] at hu
        subst hu
        simp at hne
    · intro u hu
      rw [List.mem_append] at hu
      rcases hu with hu | hu
      · exact Nat.lt_succ_of_lt (h4 u hu)
      · rw [List.mem_singleton] at hu
        subst hu
        simp
    · intro j hj
      simp only [Option.some_inj] at hj
      subst hj
      exact Nat.lt_succ_self _
  | some id0 =>
    simp only [speakChunk, hv, cancelEngine]
    refine ⟨?_, ?_, ?_, ?_, ?_⟩
    · simp
    · intro j hj
      simp only [List.nil_append, List.mem_singleton] at hj
      simp [hj]
    · intro u hu hne
      rw [List.mem_append] at hu
      rcases hu with hu | hu
      · rw [nullCallbacks, List.mem_map] at hu
        obtain ⟨w, hw, hfw⟩ := hu
        by_cases hwid : w.id = id0
        · rw [if_pos hwid] at hfw
          subst hfw
          exact ⟨rfl, rfl⟩
        · rw [if_neg hwid] at hfw
          subst hfw
          exact h3 w hw (by rw [hv]; simp [Ne.symm hwid, hwid])
      · rw [List.mem_singleton] at hu
        subst hu
        simp at hne
    · intro u hu
      rw [List.mem_append] at hu
      rcases hu with hu | hu
      · rw [nullCallbacks, List.mem_map] at hu
        obtain ⟨w, hw, hfw⟩ := hu
        have hid : u.id = w.id := by
          by_cases hwid : w.id = id0
          · rw [if_pos hwid] at hfw; subst hfw; rfl
          · rw [if_neg hwid] at hfw; subst hfw; rfl
        rw [hid]
        exact Nat.lt_succ_of_lt (h4 w hw)
      · rw [List.mem_singleton] at hu
        subst hu
        simp
    · intro j hj
      simp only [Option.some_inj] at hj
      subst hj
      exact Nat.lt_succ_self _

theorem playFrom_inv (s : Sys) (off : Int) (h : Inv s) :
    Inv (playFromCurrentChunk s off) := by
  rw [playFromCurrentChunk]
  split_ifs <;>
    first
      | exact h
      | exact speakChunk_inv _ _ _ h

theorem restart_inv (s : Sys) (f : Bool) (h : Inv s) :
    Inv (restartWithNewSettingsFromCurrentPosition s f) := by
  obtain ⟨h1, h2, h3, h4, h5⟩ := h
  rw [restartWithNewSettingsFromCurrentPosition]
  cases hv : s.uttVar with
  | none =>
    simp only [cancelEngine]
    split_ifs <;>
      first
        | exact ⟨h1, h2, h3, h4, h5⟩
        | exact ⟨by simp, by simp, h3, h4, h5⟩
  | some id0 =>
    simp only [cancelEngine]
    have h3' : ∀ u ∈ nullCallbacks s.utts id0, (some id0 : Option Nat) ≠ some u.id →
        u.onendSet = false ∧ u.onerrorSet = false := by
      intro u hu hne
      rw [nullCallbacks, List.mem_map] at hu
      obtain ⟨w, hw, hfw⟩ := hu
      by_cases hwid : w.id = id0
      · rw [if_pos hwid] at hfw
        subst hfw
        exact ⟨rfl, rfl⟩
      · rw [if_neg hwid] at hfw
        subst hfw
        exact h3 w hw (by rw [hv]; exact hne)
    have h4' : ∀ u ∈ nullCallbacks s.utts id0, u.id < s.nextId := by
      intro u hu
      rw [nullCallbacks, List.mem_map] at hu
      obtain ⟨w, hw, hfw⟩ := hu
      have hid : u.id = w.id := by
        by_cases hwid : w.id = id0
        · rw [if_pos hwid] at hfw; subst hfw; rfl
        · rw [if_neg hwid] at hfw; subst hfw; rfl
      rw [hid]
      exact h4 w hw
    have h5' : ∀ j : Nat, (some id0 : Option Nat) = some j → j < s.nextId :=
      fun j hj => h5 j (hv.trans hj)
    split_ifs <;>
      first
        | exact ⟨h1, h2, h3, h4, h5⟩
        | exact ⟨by simp, by simp, h3', h4', h5'⟩

theorem handleEngineEnd_inv (s : Sys) (id : Nat) (h : Inv s) :
    Inv (handleEngineEnd s id) := by
  obtain ⟨h1, h2, h3, h4, h5⟩ := h
  have hInv' : Inv { s with engine := s.engine.erase id } := by
    refine ⟨?_, ?_, h3, h4, h5⟩
    · exact le_trans (List.Sublist.length_le (List.erase_sublist _ _)) h1
    · intro j hj
      exact h2 j (List.mem_of_mem_erase hj)
  rw [handleEngineEnd]
  cases hf : findUtt { s with engine := s.engine.erase id } id with
  | none => exact hInv'
  | some u =>
    by_cases ho : u.onendSet = true
    · simp only [ho, if_true, onendClosure]
      split_ifs <;> exact hInv'
    · simp only [Bool.not_eq_true] at ho
      simp only [ho]
      exact hInv'

theorem handleEngineError_inv (s : Sys) (id : Nat) (h : Inv s) :
    Inv (handleEngineError s id) := by
  obtain ⟨h1, h2, h3, h4, h5⟩ := h
  have hInv' : Inv { s with engine := s.engine.erase id } := by
    refine ⟨?_, ?_, h3, h4, h5⟩
    · exact le_trans (List.Sublist.length_le (List.erase_sublist _ _)) h1
    · intro j hj
      exact h2 j (List.mem_of_mem_erase hj)
  rw [handleEngineError]
  cases hf : findUtt { s with engine := s.engine.erase id } id with
  | none => exact hInv'
  | some u =>
    by_cases ho : u.onerrorSet = true
    · simp only [ho, if_true]
      exact hInv'
    · simp only [Bool.not_eq_true] at ho
      simp only [ho]
      exact hInv'

theorem handleStop_inv (s : Sys) (h : Inv s) : Inv (handleStop s) :=
  ⟨by simp [handleStop, cancelEngine], by simp [handleStop, cancelEngine],
    h.2.2.1, h.2.2.2.1, h.2.2.2.2⟩

theorem handlePlayPause_inv (s : Sys) (h : Inv s) : Inv (handlePlayPause s) := by
  rw [handlePlayPause]
  split_ifs <;>
    first
      | exact h
      | exact playFrom_inv _ _ h

theorem step_inv (s : Sys) (e : Ev) (h : Inv s) : Inv (step s e) := by
  cases e with
  | loadText t => exact h
  | inputText t => exact h
  | playPause => exact handlePlayPause_inv s h
  | stopBtn => exact handleStop_inv s h
  | voiceChange => exact restart_inv s true h
  | rateInput v => exact h
  | rateChange v => exact restart_inv { s with rateSlider := v } false h
  | volumeChange v => exact restart_inv { s with volumeSlider := v } false h
  | timerFire i =>
    simp only [step]
    cases hp : s.pending[i]? with
    | none => exact h
    | some off => exact playFrom_inv { s with pending := s.pending.eraseIdx i } off h
  | engineEnd id => exact handleEngineEnd_inv s id h
  | engineError id => exact handleEngineError_inv s id h
  | boundary id ci cl =>
    simp only [step]
    cases hf : findUtt s id with
    | none => exact h
    | some u =>
      cases ci with
      | none => exact h
      | some j => exact h
  | jump idx =>
    simp only [step, jumpToCharIndex]
    split_ifs
    · exact h
    · exact playFrom_inv _ _ h

theorem foldl_inv (es : List Ev) : ∀ s : Sys, Inv s → Inv (es.foldl step s) := by
  induction es with
  | nil => intro s h; exact h
  | cons e es ih => intro s h; exact ih _ (step_inv s e h)

theorem run_inv (es : List Ev) : Inv (run initState es) :=
  foldl_inv es initState inv_initState

theorem stale_callbacks_noop (s : Sys) (h : Inv s) (id : Nat)
    (hid : s.uttVar ≠ some id) :
    handleEngineEnd s id = s ∧ handleEngineError s id = s := by
  have hmem : id ∉ s.engine := fun hm => hid (h.2.1 id hm)
  have herase : s.engine.erase id = s.engine := List.erase_of_not_mem hmem
  have hsame : ({ s with engine := s.engine.erase id } : Sys) = s := by
    rw [herase]
  constructor
  · rw [handleEngineEnd, hsame]
    cases hf : findUtt s id with
    | none => rfl
    | some u =>
      have hu_id : u.id = id := by
        have := List.find?_some hf
        simpa using this
      have hu_mem : u ∈ s.utts := List.mem_of_find?_eq_some hf
      have hdead := h.2.2.1 u hu_mem (by rw [hu_id]; exact hid)
      simp [hdead.1]
  · rw [handleEngineError, hsame]
    cases hf : findUtt s id with
    | none => rfl
    | some u =>
      have hu_id : u.id = id := by
        have := List.find?_some hf
        simpa using this
      have hu_mem : u ∈ s.utts := List.mem_of_find?_eq_some hf
      have hdead := h.2.2.1 u hu_mem (by rw [hu_id]; exact hid)
      simp [hdead.2]



/-- Claim C3. At most one speech request is outstanding at any time: after any
sequence of callbacks from the initial state, the engine queue holds at most
one utterance, and it is the one currently held by the `utterance` variable.
Every path that issues a new speech request goes through `speakChunk`, which
nulls the prior utterance's completion and error callbacks *before* issuing
the cancel, so a late-firing `onend`/`onerror` of any superseded request is
observably ignored (the step is the identity); in particular no sequence of
rapid settings changes produces two concurrent speech requests. -/
theorem at_most_one_speech_request (es : List Ev) :
    (run initState es).engine.length ≤ 1 ∧
    (∀ id ∈ (run initState es).engine, (run initState es).uttVar = some id) ∧
    (∀ id, (run initState es).uttVar ≠ some id →
      step (run initState es) (.engineEnd id) = run initState es ∧
      step (run initState es) (.engineError id) = run initState es) := by
  have h := run_inv es
  refine ⟨h.1, h.2.1, ?_⟩
  intro id hid
  exact stale_callbacks_noop _ h id hid

theorem at_most_one_speech_request_witness :
    (run initState [.inputText ['h', 'i'], .playPause]).engine.length ≤ 1 ∧
    (step (run initState [.inputText ['h', 'i'], .playPause]) (.engineEnd 5) =
      run initState [.inputText ['h', 'i'], .playPause] ∧
     step (run initState [.inputText ['h', 'i'], .playPause]) (.engineError 5) =
      run initState [.inputText ['h', 'i'], .playPause]) :=
  ⟨(at_most_one_speech_request [.inputText ['h', 'i'], .playPause]).1,
    (at_most_one_speech_request [.inputText ['h', 'i'], .playPause]).2.2 5
      (by decide)⟩

end DocReader
